import Mathlib

/-!
Shallow embedding of the card scraper in `poke-buddy.py` (class
`PokemonCardScraper`).  Python strings are modelled as Lean `String`
(lists of unicode chars); Python `str.split`, `str.strip`, `str.rsplit`,
`str.replace` and `int(...)` are reimplemented below with the same
semantics on the inputs this program handles (Python's `strip`/`int`
additionally accept some exotic unicode whitespace/digits, which the
card site never produces and no claim depends on).  Fallible Python code
(paths that raise and are caught, returning `{}`) is modelled with
`Option`: `none` stands for the empty dict `{}`.
-/

/-- Python whitespace for `str.strip`: space, tab, newline, carriage
return, vertical tab and form feed. -/
def isPyWs (c : Char) : Bool :=
  c == ' ' || c == '\t' || c == '\n' || c == '\r' ||
  c == Char.ofNat 11 || c == Char.ofNat 12

/-- Python `s.strip()`: remove leading and trailing whitespace. -/
def pyStrip (s : String) : String :=
  String.mk (((s.toList.dropWhile isPyWs).reverse.dropWhile isPyWs).reverse)

/-- Python `s.split(sep)` for a single-character separator, on char lists:
split at every occurrence of `sep`; always returns at least one part. -/
def splitOnChar (sep : Char) : List Char → List (List Char)
  | [] => [[]]
  | c :: cs =>
    let r := splitOnChar sep cs
    if c == sep then [] :: r else (c :: r.headD []) :: r.tail

/-- Python `s.split(sep)` for a single-character separator. -/
def pySplitChar (sep : Char) (s : String) : List String :=
  (splitOnChar sep s.toList).map String.mk

/-- The text before the first occurrence of `sep` (the whole string if
`sep` is absent); Python `s.split(sep, 1)[0]`. -/
def beforeFirst (sep : Char) (s : String) : String :=
  String.mk (s.toList.takeWhile (fun c => c != sep))

/-- The text after the first occurrence of `sep`; Python
`s.split(sep, 1)[1]` (meaningful only when `sep` occurs). -/
def afterFirst (sep : Char) (s : String) : String :=
  String.mk ((s.toList.dropWhile (fun c => c != sep)).tail)

/-- Python `s.rsplit(' ', 1)`: split at the last space character,
yielding two parts, or the whole string if it has no space. -/
def pyRsplitSpace1 (s : String) : List String :=
  let r := s.toList.reverse
  if ' ' ∈ r then
    [String.mk ((r.dropWhile (fun c => c != ' ')).tail.reverse),
     String.mk ((r.takeWhile (fun c => c != ' ')).reverse)]
  else [s]

/-- Python `'\n'.join(xs)`. -/
def joinNL (xs : List String) : String := String.intercalate "\n" xs

/-- Lines 48-60: the fixed letter-to-energy-type map of
`parse_energy_symbols`. -/
def energyMap (c : Char) : Option String :=
  match c with
  | 'C' => some "Colorless"
  | 'G' => some "Grass"
  | 'R' => some "Fire"
  | 'W' => some "Water"
  | 'L' => some "Lightning"
  | 'P' => some "Psychic"
  | 'F' => some "Fighting"
  | 'D' => some "Darkness"
  | 'M' => some "Metal"
  | 'Y' => some "Fairy"
  | 'N' => some "Dragon"
  | _ => none

/-- Lines 65-69: for one part of `text.split('{')`, if it contains `}`
its first character is looked up in the energy map. -/
def energyFromPart (part : List Char) : Option String :=
  if '}' ∈ part then
    match part with
    | [] => none
    | c :: _ => energyMap c
  else none

/-- Lines 46-70: `parse_energy_symbols`. Splits on `{`, skips the text
before the first `{`, and maps each remaining part through
`energyFromPart`. -/
def parse_energy_symbols (text : String) : List String :=
  ((splitOnChar '{' text.toList).drop 1).filterMap energyFromPart

/-- Line 134: keep only the digit characters of `damage`; if none
remain the damage defaults to `"0"`. -/
def cleanDamage (damage : String) : String :=
  let ds := damage.toList.filter Char.isDigit
  if ds.isEmpty then "0" else String.mk ds

/-- The structured attack dict built by `parse_attack` (lines 136-141). -/
structure Attack where
  name : String
  damage : String
  energy_cost : List String
  description : String
deriving DecidableEq, Repr

/-- Lines 104-131: classification of the first body line of an attack.
`first_line` is the stripped first line, `ls` the remaining lines
(`info_lines[1:]`).  Returns `(name, damage, description)`, or `none`
for the `IndexError` Python raises (and catches, returning `{}`) when
the text before `×` has no space. -/
def parse_attack_body (first_line : String) (ls : List String) :
    Option (String × String × String) :=
  if '×' ∈ first_line.toList then
    match pyRsplitSpace1 (beforeFirst '×' first_line) with
    | [n, d] =>
      some (pyStrip n, cleanDamage (pyStrip d),
            if ls.isEmpty then "" else pyStrip (joinNL ls))
    | _ => none
  else if ':' ∈ first_line.toList then
    let head := beforeFirst ':' first_line
    let desc := afterFirst ':' first_line
    let nd :=
      match pyRsplitSpace1 head with
      | [n, d] =>
        if d.toList.any Char.isDigit then (pyStrip n, cleanDamage (pyStrip d))
        else (pyStrip head, "0")
      | _ => (pyStrip head, "0")
    some (nd.1, nd.2, pyStrip (desc ++ "\n" ++ joinNL ls))
  else
    let nd :=
      match pyRsplitSpace1 first_line with
      | [n, d] =>
        if d.toList.any Char.isDigit then (pyStrip n, cleanDamage (pyStrip d))
        else (pyStrip first_line, "0")
      | _ => (pyStrip first_line, "0")
    some (nd.1, nd.2, if ls.isEmpty then "" else pyStrip (joinNL ls))

/-- Lines 84-144: `parse_attack`.  Splits on the arrow; with exactly two
parts it parses the body, otherwise (arrow absent or repeated) it
returns `{}` (`none`). -/
def parse_attack (attack_text : String) : Option Attack :=
  match pySplitChar '→' attack_text with
  | [p0, p1] =>
    let info_lines := pySplitChar '\n' (pyStrip p1)
    let first_line := pyStrip (info_lines.headD "")
    (parse_attack_body first_line info_lines.tail).map (fun ndd =>
      { name := ndd.1, damage := ndd.2.1,
        energy_cost := parse_energy_symbols (pyStrip p0),
        description := ndd.2.2 })
  | _ => none

/-- Python `text.split('{C}')` on char lists (line 214): split at every
leftmost occurrence of the three-character pattern. -/
def splitCToken : List Char → List (List Char)
  | '{' :: 'C' :: '}' :: rest => [] :: splitCToken rest
  | c :: cs =>
    let r := splitCToken cs
    (c :: r.headD []) :: r.tail
  | [] => [[]]

/-- Line 214: the retreat-cost counting operation
`len(retreat_text.split('{C}')) - 1`. -/
def retreat_count_op (s : String) : Nat := (splitCToken s.toList).length - 1

/-- Python `s.replace('HP', '')` on char lists (line 196): delete every
leftmost occurrence of `HP`. -/
def replaceHP : List Char → List Char
  | 'H' :: 'P' :: rest => replaceHP rest
  | c :: cs => c :: replaceHP cs
  | [] => []

/-- Python `s.replace('HP', '')` on strings. -/
def replaceHPStr (s : String) : String := String.mk (replaceHP s.toList)

/-- Accumulating digit-run reader for Python `int`: digits with single
underscores allowed between digits. -/
def pyDigitsGo (acc : Nat) : List Char → Option Nat
  | [] => some acc
  | '_' :: c :: cs =>
    if c.isDigit then pyDigitsGo (acc * 10 + (c.toNat - 48)) cs else none
  | c :: cs =>
    if c.isDigit then pyDigitsGo (acc * 10 + (c.toNat - 48)) cs else none

/-- Digit run of Python `int`.  Returns the value, or `none` if
malformed. -/
def pyDigitsVal : List Char → Option Nat
  | [] => none
  | c :: cs =>
    if c.isDigit then pyDigitsGo (c.toNat - 48) cs else none

/-- Python `int(s)`: strip whitespace, optional sign, digit run; `none`
models the `ValueError` path. -/
def pyInt (s : String) : Option Int :=
  match (pyStrip s).toList with
  | '+' :: rest => (pyDigitsVal rest).map Int.ofNat
  | '-' :: rest => (pyDigitsVal rest).map (fun n => -(Int.ofNat n))
  | t => (pyDigitsVal t).map Int.ofNat

/-- Python `pat in s` substring test: `pat` matches at some position. -/
def pyIn (pat s : String) : Bool :=
  (List.range (s.toList.length + 1)).any
    (fun i => pat.toList.isPrefixOf (s.toList.drop i))

/-- One card's markup subtree, reduced to the texts `parse_card_data`
reads: the paragraph texts of the `text` div (absent div = `none`), the
`name` span text, the `type-evolves-is` div text, the `hp` span text,
the `color` span text, and the retreat `abbr`'s `title` attribute
(`none` collapses every structural absence on lines 209-219, each of
which yields retreat cost 0). -/
structure Card where
  text_div : Option (List String)
  name_span : Option String
  type_div : Option String
  hp_span : Option String
  color_span : Option String
  retreat_attr : Option String
deriving DecidableEq, Repr

/-- The record built by `parse_card_data`; optional dict keys become
`Option` fields. -/
structure CardData where
  name : String
  type_line : Option String
  category : Option String
  hp : Option Int
  color : Option String
  text : String
  retreat_cost : Option Nat
deriving DecidableEq, Repr

/-- Lines 150-157: the paragraph texts of the text div, stripped and
joined with blank lines; `""` when the div is absent. -/
def text_content_of (card : Card) : String :=
  match card.text_div with
  | none => ""
  | some ps => String.intercalate "\n\n" (ps.map pyStrip)

/-- Lines 163-164: the stripped type line, `""` when absent. -/
def type_text_of (card : Card) : String :=
  match card.type_div with
  | some t => pyStrip t
  | none => ""

/-- Line 167: the deduplication identifier: type text, newline, text
content. -/
def card_identifier (card : Card) : String :=
  type_text_of card ++ "\n" ++ text_content_of card

/-- Line 184: the category, i.e. the type line before the first `›`,
stripped. -/
def category_of (card : Card) : String :=
  pyStrip (beforeFirst '›' (type_text_of card))

/-- Lines 180-190: a card is a Pokémon iff it has a type line whose
category contains the word `Pokémon`. -/
def is_pokemon_of (card : Card) : Bool :=
  match card.type_div with
  | some _ => pyIn "Pokémon" (category_of card)
  | none => false

/-- Lines 192-196: the hp field.  `none` models the uncaught
`ValueError` of `int(...)` (the card is dropped); `some none` means the
key is absent; `some (some v)` a parsed hp. -/
def hp_result (card : Card) : Option (Option Int) :=
  if is_pokemon_of card then
    match card.hp_span with
    | none => some none
    | some hps =>
      match pyInt (pyStrip (replaceHPStr (pyStrip hps))) with
      | none => none
      | some v => some (some v)
  else some none

/-- Lines 206-222: the retreat cost field; only Pokémon cards carry the
key, and every structural absence or caught error yields 0. -/
def retreat_of (card : Card) : Option Nat :=
  if is_pokemon_of card then
    some (match card.retreat_attr with
          | some t => retreat_count_op t
          | none => 0)
  else none

/-- Lines 175-222: the populated record for a card that passed the name
lookup, the duplicate check and the hp parse. -/
def card_record_of (card : Card) (nameRaw : String) (hp : Option Int) :
    CardData :=
  { name := pyStrip nameRaw,
    type_line := card.type_div.map (fun _ => type_text_of card),
    category := card.type_div.map (fun _ => category_of card),
    hp := hp,
    color := card.color_span.map pyStrip,
    text := text_content_of card,
    retreat_cost := retreat_of card }

/-- Lines 146-230: `parse_card_data`.  The seen-identifier set of the
scraper (`self.seen_texts`) is passed and returned explicitly; `none`
models the empty dict `{}` returned on the duplicate path and on every
caught exception (missing name span, unparsable hp). -/
def parse_card_data (card : Card) (seen : List String) :
    Option CardData × List String :=
  match card.name_span with
  | none => (none, seen)
  | some nameRaw =>
    if card_identifier card ∈ seen then (none, seen)
    else
      match hp_result card with
      | none => (none, seen)
      | some hp =>
        (some (card_record_of card nameRaw hp), card_identifier card :: seen)

/-- Lines 33-44: `get_total_pages`.  The marker is the text of the
`last-page-link` span (`none` when the element is absent); the count is
the integer after the last `/`, defaulting to 1 when the marker is
absent or the numeral fails to parse. -/
def get_total_pages (marker : Option String) : Int :=
  match marker with
  | none => 1
  | some t =>
    match pyInt (((pySplitChar '/' (pyStrip t)).getLast?).getD "") with
    | none => 1
    | some v => v

/-- The number of occurrences of `pat` in `l`: the number of positions
at which `pat` matches. -/
def occCount (pat : List Char) (l : List Char) : Nat :=
  (List.range (l.length + 1)).countP (fun i => pat.isPrefixOf (l.drop i))

/-- The token contributed at an occurrence of `{`: if a `}` occurs
before the next `{`, the character right after the `{` is looked up in
the energy map. -/
def braceToken (rest : List Char) : Option String :=
  match rest with
  | [] => none
  | c :: _ =>
    if '}' ∈ rest.takeWhile (fun x => x != '{') then energyMap c else none

/-- Left-to-right character scan equivalent to `parse_energy_symbols`
(the amended reading of the spec's token scan). -/
def scanA : List Char → List String
  | [] => []
  | c :: cs => (if c = '{' then (braceToken cs).toList else []) ++ scanA cs

/-- Modelled from the spec's words for claim C3: scan left to right for
three-character tokens `{X}` (the `}` immediately after the single
letter), mapping recognized letters and skipping unrecognized ones. -/
def specFormScan : List Char → List String
  | '{' :: x :: '}' :: rest => (energyMap x).toList ++ specFormScan rest
  | _ :: rest => specFormScan rest
  | [] => []

/-! ## Helper lemmas -/

theorem takeWhile_all_append (p : Char → Bool) (u v : List Char)
    (h : ∀ c ∈ u, p c = true) :
    (u ++ v).takeWhile p = u ++ v.takeWhile p := by
  induction u with
  | nil => simp
  | cons a u ih =>
    simp only [List.cons_append]
    rw [List.takeWhile_cons_of_pos (h a (by simp)),
      ih (fun c hc => h c (by simp [hc]))]

theorem dropWhile_all_append (p : Char → Bool) (u v : List Char)
    (h : ∀ c ∈ u, p c = true) :
    (u ++ v).dropWhile p = v.dropWhile p := by
  induction u with
  | nil => simp
  | cons a u ih =>
    simp only [List.cons_append]
    rw [List.dropWhile_cons_of_pos (h a (by simp))]
    exact ih (fun c hc => h c (by simp [hc]))

theorem rsplit_no_space (s : String) (h : ' ' ∉ s.toList) :
    pyRsplitSpace1 s = [s] := by
  unfold pyRsplitSpace1
  rw [if_neg]
  simpa using h

theorem rsplit_decomp (a b : String) (hb : ' ' ∉ b.toList) :
    pyRsplitSpace1 (a ++ " " ++ b) = [a, b] := by
  have hl : (a ++ " " ++ b).toList.reverse
      = b.toList.reverse ++ ' ' :: a.toList.reverse := by
    show ((a.toList ++ [' ']) ++ b.toList).reverse = _
    simp
  have hbv : ∀ c ∈ b.toList.reverse, (c != ' ') = true := by
    intro c hc
    simp only [List.mem_reverse] at hc
    simp only [bne_iff_ne, ne_eq]
    exact fun hcc => hb (hcc ▸ hc)
  unfold pyRsplitSpace1
  rw [hl, if_pos (by simp)]
  rw [takeWhile_all_append _ _ _ hbv, dropWhile_all_append _ _ _ hbv]
  rw [List.takeWhile_cons_of_neg (by simp), List.dropWhile_cons_of_neg (by simp)]
  simp

theorem pyStrip_no_ws (s : String) (h : ∀ c ∈ s.toList, isPyWs c = false) :
    pyStrip s = s := by
  have hd : ∀ (l : List Char), (∀ c ∈ l, isPyWs c = false) → l.dropWhile isPyWs = l := by
    intro l hl
    cases l with
    | nil => rfl
    | cons a t => exact List.dropWhile_cons_of_neg (by simp [hl a (by simp)])
  unfold pyStrip
  rw [hd _ h, hd _ (by intro c hc; exact h c (by simpa using hc))]
  simp

theorem splitOnChar_ne_nil (sep : Char) (l : List Char) :
    splitOnChar sep l ≠ [] := by
  cases l with
  | nil => simp [splitOnChar]
  | cons c cs =>
    unfold splitOnChar
    split <;> simp

theorem headD_splitOnChar (sep : Char) (l : List Char) :
    (splitOnChar sep l).headD [] = l.takeWhile (fun c => c != sep) := by
  induction l with
  | nil => rfl
  | cons c cs ih =>
    by_cases h : c = sep
    · simp [splitOnChar, h, List.takeWhile_cons]
    · simpa [splitOnChar, beq_iff_eq, h, List.takeWhile_cons] using ih

theorem energyFromPart_takeWhile (cs : List Char) :
    energyFromPart (cs.takeWhile (fun x => x != '{')) = braceToken cs := by
  cases cs with
  | nil => rfl
  | cons d ds =>
    by_cases h : d = '{'
    · subst h
      simp [energyFromPart, braceToken, List.takeWhile_cons]
    · rw [List.takeWhile_cons_of_pos (by simp [h])]
      simp [energyFromPart, braceToken, List.takeWhile_cons_of_pos, h]

theorem scanA_cons (c : Char) (cs : List Char) :
    scanA (c :: cs) = (if c = '{' then (braceToken cs).toList else []) ++ scanA cs := by
  simp [scanA]

theorem parse_energy_symbols_eq_scanA (s : String) :
    parse_energy_symbols s = scanA s.toList := by
  show ((splitOnChar '{' s.toList).drop 1).filterMap energyFromPart = scanA s.toList
  induction s.toList with
  | nil => rfl
  | cons c cs ih =>
    by_cases h : c = '{'
    · subst h
      obtain ⟨x, xs, hc⟩ : ∃ x xs, splitOnChar '{' cs = x :: xs := by
        cases hcc : splitOnChar '{' cs with
        | nil => exact absurd hcc (splitOnChar_ne_nil _ _)
        | cons y ys => exact ⟨y, ys, rfl⟩
      have hx : x = cs.takeWhile (fun c => c != '{') := by
        have h0 := headD_splitOnChar '{' cs
        rw [hc] at h0
        simpa using h0
      have h1 : splitOnChar '{' ('{' :: cs) = [] :: x :: xs := by
        simp [splitOnChar, hc]
      rw [h1, scanA_cons, if_pos rfl, List.drop_one, List.tail_cons,
        List.filterMap_cons]
      have hxe : energyFromPart x = braceToken cs := by
        rw [hx, energyFromPart_takeWhile]
      have hxs : xs = List.drop 1 (splitOnChar '{' cs) := by rw [hc]; rfl
      rw [hxe, hxs, ih]
      cases braceToken cs <;> simp
    · have h1 : splitOnChar '{' (c :: cs)
          = (c :: (splitOnChar '{' cs).headD []) :: (splitOnChar '{' cs).tail := by
        simp [splitOnChar, beq_iff_eq, h]
      rw [h1, scanA_cons, if_neg h, List.drop_one, List.tail_cons,
        ← List.drop_one, ih]
      simp

theorem occCount_cons (pat : List Char) (c : Char) (cs : List Char) :
    occCount pat (c :: cs) =
      (if pat.isPrefixOf (c :: cs) = true then 1 else 0) + occCount pat cs := by
  unfold occCount
  have h1 : (c :: cs).length + 1 = cs.length + 1 + 1 := rfl
  rw [h1, List.range_succ_eq_map, List.countP_cons, List.countP_map]
  have h2 : ((fun i => pat.isPrefixOf ((c :: cs).drop i)) ∘ Nat.succ)
      = (fun i => pat.isPrefixOf (cs.drop i)) := by
    funext i
    simp [Function.comp, List.drop_succ_cons]
  rw [h2]
  simp only [List.drop_zero]
  by_cases hp : pat.isPrefixOf (c :: cs) = true
  · simp [hp]
    omega
  · simp [hp]

theorem splitCToken_ne_nil (l : List Char) : splitCToken l ≠ [] := by
  cases l with
  | nil => simp [splitCToken]
  | cons c cs =>
    unfold splitCToken
    split <;> simp

theorem occCount_cons_pos (pat : List Char) (c : Char) (cs : List Char)
    (h : pat.isPrefixOf (c :: cs) = true) :
    occCount pat (c :: cs) = occCount pat cs + 1 := by
  rw [occCount_cons, h]
  simp [Nat.add_comm]

theorem occCount_cons_neg (pat : List Char) (c : Char) (cs : List Char)
    (h : pat.isPrefixOf (c :: cs) = false) :
    occCount pat (c :: cs) = occCount pat cs := by
  rw [occCount_cons, h]
  simp

theorem splitCToken_length (l : List Char) :
    (splitCToken l).length = occCount ['{', 'C', '}'] l + 1 := by
  induction l using splitCToken.induct with
  | case1 rest ih =>
    rw [splitCToken.eq_1]
    rw [occCount_cons_pos _ _ _ (by simp [List.isPrefixOf])]
    rw [occCount_cons_neg _ _ _ (by simp [List.isPrefixOf])]
    rw [occCount_cons_neg _ _ _ (by simp [List.isPrefixOf])]
    simp only [List.length_cons, ih]
  | case2 c cs h ih =>
    have hnp : ['{', 'C', '}'].isPrefixOf (c :: cs) = false := by
      rcases hb : ['{', 'C', '}'].isPrefixOf (c :: cs) with _ | _
      · rfl
      · exfalso
        have hcc : c = '{' ∧ ['C', '}'].isPrefixOf cs = true := by
          simp only [List.isPrefixOf] at hb
          rcases Bool.and_eq_true_iff.mp hb with ⟨ha, hbb⟩
          exact ⟨(eq_of_beq ha).symm, hbb⟩
        rcases hcc with ⟨hc1, hc2⟩
        rcases cs with _ | ⟨d, ds⟩
        · simp [List.isPrefixOf] at hc2
        · rcases ds with _ | ⟨e, es⟩
          · simp [List.isPrefixOf] at hc2
          · have hd : d = 'C' ∧ e = '}' := by
              simp only [List.isPrefixOf] at hc2
              rcases Bool.and_eq_true_iff.mp hc2 with ⟨h1, h2⟩
              rcases Bool.and_eq_true_iff.mp h2 with ⟨h3, _⟩
              exact ⟨(eq_of_beq h1).symm, (eq_of_beq h3).symm⟩
            exact h es hc1 (by rw [hd.1, hd.2])
    rw [splitCToken.eq_2 c cs h, occCount_cons_neg _ _ _ hnp]
    have hne := splitCToken_ne_nil cs
    rcases hc : splitCToken cs with _ | ⟨x, xs⟩
    · exact absurd hc hne
    · rw [hc] at ih
      have ih2 : xs.length + 1 = occCount ['{', 'C', '}'] cs + 1 := by
        simpa using ih
      simp only [List.headD, List.tail_cons, List.length_cons]
      omega
  | case3 => decide

theorem parse_attack_eq_body (t p0 p1 : String)
    (hs : pySplitChar '→' t = [p0, p1]) :
    parse_attack t =
      (parse_attack_body (pyStrip ((pySplitChar '\n' (pyStrip p1)).headD ""))
          (pySplitChar '\n' (pyStrip p1)).tail).map (fun ndd =>
        { name := ndd.1, damage := ndd.2.1,
          energy_cost := parse_energy_symbols (pyStrip p0),
          description := ndd.2.2 }) := by
  unfold parse_attack
  rw [hs]

theorem rsplit_two_of_space (s : String) (h : ' ' ∈ s.toList) :
    pyRsplitSpace1 s =
      [String.mk ((s.toList.reverse.dropWhile (fun c => c != ' ')).tail.reverse),
       String.mk ((s.toList.reverse.takeWhile (fun c => c != ' ')).reverse)] := by
  unfold pyRsplitSpace1
  rw [if_pos (by simpa using h)]

theorem parse_attack_body_no_glyph_some (fl : String) (ls : List String)
    (hg : '×' ∉ fl.toList) : ∃ r, parse_attack_body fl ls = some r := by
  unfold parse_attack_body
  rw [if_neg hg]
  by_cases hc : ':' ∈ fl.toList
  · rw [if_pos hc]
    exact ⟨_, rfl⟩
  · rw [if_neg hc]
    exact ⟨_, rfl⟩

/-- Claim C1 (amended): for every attack block with exactly one arrow
whose first body line contains the glyph `×` and whose pre-glyph text
contains a space character, `parse_attack` splits the pre-glyph text at
its last space: the damage is the digit-normalization of the final
segment (so the spec's example, whose `×2` puts the multiplicand after
the glyph, yields damage `"0"`, not `"2"`), the name is the trimmed
remainder, and the description is the remaining lines joined and
trimmed. -/
theorem parse_attack_mult_form (t p0 p1 fl a b : String) (ls : List String)
    (hsplit : pySplitChar '→' t = [p0, p1])
    (hlines : pySplitChar '\n' (pyStrip p1) = fl :: ls)
    (hglyph : '×' ∈ (pyStrip fl).toList)
    (hpre : beforeFirst '×' (pyStrip fl) = a ++ " " ++ b)
    (hb : ' ' ∉ b.toList) :
    parse_attack t = some
      { name := pyStrip a, damage := cleanDamage (pyStrip b),
        energy_cost := parse_energy_symbols (pyStrip p0),
        description := if ls.isEmpty then "" else pyStrip (joinNL ls) } := by
  rw [parse_attack_eq_body t p0 p1 hsplit, hlines]
  show (parse_attack_body (pyStrip fl) ls).map _ = _
  unfold parse_attack_body
  rw [if_pos hglyph, hpre, rsplit_decomp a b hb]
  rfl

/-- Claim C5 (amended): for every attack block with exactly one arrow
whose first body line has no `×` but has a colon, `parse_attack` splits
on the first colon into head and tail; if the head splits at a last
space character into a candidate name and a candidate damage, the
trailing token is accepted as damage exactly when it contains a digit
(otherwise the whole head is the name and damage stays `"0"`); a head
with no space char is wholly the name; description is the tail joined
with the remaining lines, trimmed. -/
theorem parse_attack_colon_form (t p0 p1 fl : String) (ls : List String)
    (hsplit : pySplitChar '→' t = [p0, p1])
    (hlines : pySplitChar '\n' (pyStrip p1) = fl :: ls)
    (hnoglyph : '×' ∉ (pyStrip fl).toList)
    (hcolon : ':' ∈ (pyStrip fl).toList) :
    (∀ a b : String, beforeFirst ':' (pyStrip fl) = a ++ " " ++ b →
      ' ' ∉ b.toList →
      parse_attack t = some
        { name := if b.toList.any Char.isDigit then pyStrip a
                  else pyStrip (beforeFirst ':' (pyStrip fl)),
          damage := if b.toList.any Char.isDigit then cleanDamage (pyStrip b)
                    else "0",
          energy_cost := parse_energy_symbols (pyStrip p0),
          description := pyStrip (afterFirst ':' (pyStrip fl) ++ "\n" ++ joinNL ls) })
    ∧ (' ' ∉ (beforeFirst ':' (pyStrip fl)).toList →
      parse_attack t = some
        { name := pyStrip (beforeFirst ':' (pyStrip fl)), damage := "0",
          energy_cost := parse_energy_symbols (pyStrip p0),
          description := pyStrip (afterFirst ':' (pyStrip fl) ++ "\n" ++ joinNL ls) }) := by
  constructor
  · intro a b hab hb
    rw [parse_attack_eq_body t p0 p1 hsplit, hlines]
    show (parse_attack_body (pyStrip fl) ls).map _ = _
    unfold parse_attack_body
    rw [if_neg hnoglyph, if_pos hcolon, hab]
    simp only [rsplit_decomp a b hb]
    by_cases hd : b.toList.any Char.isDigit
    · simp only [hd, if_true]
      rfl
    · simp only [hd, Bool.false_eq_true, if_false]
      rfl
  · intro hns
    rw [parse_attack_eq_body t p0 p1 hsplit, hlines]
    show (parse_attack_body (pyStrip fl) ls).map _ = _
    unfold parse_attack_body
    rw [if_neg hnoglyph, if_pos hcolon]
    simp only [rsplit_no_space _ hns]
    rfl

/-- Claim C10: in both the colon form and the bare form of
`parse_attack`, when the candidate name-and-damage text contains no
whitespace at all, the entire token becomes the name and the damage
stays `"0"`, even if the token consists entirely of digits. -/
theorem parse_attack_single_token (t p0 p1 fl : String) (ls : List String)
    (hsplit : pySplitChar '→' t = [p0, p1])
    (hlines : pySplitChar '\n' (pyStrip p1) = fl :: ls)
    (hnoglyph : '×' ∉ (pyStrip fl).toList) :
    (':' ∈ (pyStrip fl).toList →
      (∀ c ∈ (beforeFirst ':' (pyStrip fl)).toList, isPyWs c = false) →
      parse_attack t = some
        { name := beforeFirst ':' (pyStrip fl), damage := "0",
          energy_cost := parse_energy_symbols (pyStrip p0),
          description := pyStrip (afterFirst ':' (pyStrip fl) ++ "\n" ++ joinNL ls) })
    ∧ (':' ∉ (pyStrip fl).toList →
      (∀ c ∈ (pyStrip fl).toList, isPyWs c = false) →
      parse_attack t = some
        { name := pyStrip fl, damage := "0",
          energy_cost := parse_energy_symbols (pyStrip p0),
          description := if ls.isEmpty then "" else pyStrip (joinNL ls) }) := by
  constructor
  · intro hcolon hws
    rw [parse_attack_eq_body t p0 p1 hsplit, hlines]
    show (parse_attack_body (pyStrip fl) ls).map _ = _
    unfold parse_attack_body
    rw [if_neg hnoglyph, if_pos hcolon]
    have hns : ' ' ∉ (beforeFirst ':' (pyStrip fl)).toList := by
      intro hsp
      have h1 := hws ' ' hsp
      simp [isPyWs] at h1
    simp only [rsplit_no_space _ hns, pyStrip_no_ws _ hws]
    rfl
  · intro hcolon hws
    rw [parse_attack_eq_body t p0 p1 hsplit, hlines]
    show (parse_attack_body (pyStrip fl) ls).map _ = _
    unfold parse_attack_body
    rw [if_neg hnoglyph, if_neg hcolon]
    have hns : ' ' ∉ (pyStrip fl).toList := by
      intro hsp
      have h1 := hws ' ' hsp
      simp [isPyWs] at h1
    simp only [rsplit_no_space _ hns, pyStrip_no_ws _ hws]
    rfl

/-- Claim C6 (amended): `parse_attack` returns the empty result iff the
arrow is absent or repeated, or the arrow appears exactly once but the
first body line contains `×` with no space before it in the pre-glyph
text (the `IndexError` path); in every other one-arrow case a record is
produced. -/
theorem parse_attack_none_iff (t : String) :
    parse_attack t = none ↔
      ((pySplitChar '→' t).length ≠ 2 ∨
       ∃ p0 p1, pySplitChar '→' t = [p0, p1] ∧
         '×' ∈ (pyStrip ((pySplitChar '\n' (pyStrip p1)).headD "")).toList ∧
         ' ' ∉ (beforeFirst '×'
           (pyStrip ((pySplitChar '\n' (pyStrip p1)).headD ""))).toList) := by
  rcases hs : pySplitChar '→' t with _ | ⟨x, _ | ⟨y, _ | ⟨z, zs⟩⟩⟩
  · simp [parse_attack, hs]
  · simp [parse_attack, hs]
  · rw [parse_attack_eq_body t x y hs]
    set fl := pyStrip ((pySplitChar '\n' (pyStrip y)).headD "") with hfl
    by_cases hg : '×' ∈ fl.toList
    · by_cases hsp : ' ' ∈ (beforeFirst '×' fl).toList
      · unfold parse_attack_body
        rw [if_pos hg, rsplit_two_of_space _ hsp]
        simp only [Option.map_some]
        constructor
        · intro hcontra
          exact absurd hcontra (by simp)
        · rintro (h2 | ⟨p0, p1, hpp, hgg, hnsp⟩)
          · simp at h2
          · have hyy : p1 = y := by
              have h3 := hpp
              simp only [List.cons.injEq, and_true] at h3
              exact h3.2.symm
            subst hyy
            exact absurd hsp hnsp
      · unfold parse_attack_body
        rw [if_pos hg, rsplit_no_space _ hsp]
        simp only [Option.map_none]
        constructor
        · intro _
          exact Or.inr ⟨x, y, rfl, hg, hsp⟩
        · intro _
          rfl
    · rcases parse_attack_body_no_glyph_some fl
        (pySplitChar '\n' (pyStrip y)).tail hg with ⟨r, hr⟩
      rw [hr]
      constructor
      · intro hcontra
        exact absurd hcontra (by simp)
      · rintro (h2 | ⟨p0, p1, hpp, hgg, hnsp⟩)
        · simp at h2
        · have hyy : p1 = y := by
            have h3 := hpp
            simp only [List.cons.injEq, and_true] at h3
            exact h3.2.symm
          subst hyy
          exact absurd hgg hg
  · simp [parse_attack, hs]

theorem parse_card_data_no_name (card : Card) (seen : List String)
    (h : card.name_span = none) :
    parse_card_data card seen = (none, seen) := by
  unfold parse_card_data
  rw [h]

theorem parse_card_data_dup (card : Card) (seen : List String)
    (nameRaw : String) (h : card.name_span = some nameRaw)
    (hdup : card_identifier card ∈ seen) :
    parse_card_data card seen = (none, seen) := by
  unfold parse_card_data
  rw [h]
  exact if_pos hdup

theorem parse_card_data_hp_fail (card : Card) (seen : List String)
    (nameRaw : String) (h : card.name_span = some nameRaw)
    (hdup : card_identifier card ∉ seen)
    (hres : hp_result card = none) :
    parse_card_data card seen = (none, seen) := by
  unfold parse_card_data
  rw [h]
  show (if card_identifier card ∈ seen then ((none, seen) : Option CardData × List String)
    else match hp_result card with
      | none => (none, seen)
      | some hp => (some (card_record_of card nameRaw hp),
          card_identifier card :: seen)) = (none, seen)
  rw [if_neg hdup, hres]

theorem parse_card_data_ok (card : Card) (seen : List String)
    (nameRaw : String) (hp : Option Int) (h : card.name_span = some nameRaw)
    (hdup : card_identifier card ∉ seen)
    (hres : hp_result card = some hp) :
    parse_card_data card seen =
      (some (card_record_of card nameRaw hp), card_identifier card :: seen) := by
  unfold parse_card_data
  rw [h]
  show (if card_identifier card ∈ seen then ((none, seen) : Option CardData × List String)
    else match hp_result card with
      | none => (none, seen)
      | some hp2 => (some (card_record_of card nameRaw hp2),
          card_identifier card :: seen)) = _
  rw [if_neg hdup, hres]

theorem parse_card_data_some_inv (card : Card) (seen : List String)
    (cd : CardData) (s' : List String)
    (h : parse_card_data card seen = (some cd, s')) :
    ∃ nameRaw hp, card.name_span = some nameRaw ∧
      card_identifier card ∉ seen ∧
      hp_result card = some hp ∧
      cd = card_record_of card nameRaw hp ∧
      s' = card_identifier card :: seen := by
  cases hn : card.name_span with
  | none =>
    rw [parse_card_data_no_name card seen hn] at h
    simp at h
  | some nameRaw =>
    by_cases hdup : card_identifier card ∈ seen
    · rw [parse_card_data_dup card seen nameRaw hn hdup] at h
      simp at h
    · cases hh : hp_result card with
      | none =>
        rw [parse_card_data_hp_fail card seen nameRaw hn hdup hh] at h
        simp at h
      | some hp =>
        rw [parse_card_data_ok card seen nameRaw hp hn hdup hh] at h
        simp only [Prod.mk.injEq, Option.some.injEq] at h
        exact ⟨nameRaw, hp, rfl, hdup, rfl, h.1.symm, h.2.symm⟩

/-- Claim C2 (amended): for any two card subtrees with exactly equal
identifiers processed in sequence through the same scraper state, if the
first call returns a populated record then it registers the identifier,
and the second call returns the empty skip result without registering
anything. -/
theorem dedup_second_skip (c1 c2 : Card) (seen : List String) (cd : CardData)
    (s1 : List String)
    (hid : card_identifier c1 = card_identifier c2)
    (h1 : parse_card_data c1 seen = (some cd, s1)) :
    s1 = card_identifier c1 :: seen ∧ parse_card_data c2 s1 = (none, s1) := by
  obtain ⟨nr, hp, hn, hdup, hh, hcd, hs1⟩ :=
    parse_card_data_some_inv c1 seen cd s1 h1
  refine ⟨hs1, ?_⟩
  cases hn2 : c2.name_span with
  | none => exact parse_card_data_no_name c2 s1 hn2
  | some nr2 =>
    refine parse_card_data_dup c2 s1 nr2 hn2 ?_
    rw [← hid, hs1]
    exact List.mem_cons_self _ _

/-- Claim C7: every record returned by `parse_card_data` carries an
`hp` or `retreat_cost` field only when its category is present and
contains the word `Pokémon`. -/
theorem hp_retreat_only_pokemon (card : Card) (seen : List String)
    (cd : CardData) (s' : List String)
    (h : parse_card_data card seen = (some cd, s'))
    (hfield : cd.hp.isSome ∨ cd.retreat_cost.isSome) :
    ∃ cat, cd.category = some cat ∧ pyIn "Pokémon" cat = true := by
  obtain ⟨nr, hp, hn, hdup, hh, hcd, _⟩ :=
    parse_card_data_some_inv card seen cd s' h
  subst hcd
  have hpoke : is_pokemon_of card = true := by
    rcases hfield with hf | hf
    · by_contra hnp
      have hnone : hp_result card = some none := by
        unfold hp_result
        rw [if_neg hnp]
      rw [hh] at hnone
      simp only [Option.some.injEq] at hnone
      simp only [card_record_of, hnone] at hf
      simp at hf
    · by_contra hnp
      have hnone : retreat_of card = none := by
        unfold retreat_of
        rw [if_neg hnp]
      simp only [card_record_of, hnone] at hf
      simp at hf
  unfold is_pokemon_of at hpoke
  cases ht : card.type_div with
  | none =>
    rw [ht] at hpoke
    simp at hpoke
  | some tt =>
    rw [ht] at hpoke
    refine ⟨category_of card, ?_, hpoke⟩
    simp [card_record_of, ht]

/-- Claim C9: when per-card extraction fails after the duplicate check
(the card is a Pokémon whose hp text does not parse as an integer after
stripping `HP` — the only fallible step there, since retreat errors are
caught internally), `parse_card_data` returns the empty skip result and
leaves the seen-identifier set unchanged. -/
theorem hp_parse_failure_drops_card (card : Card) (seen : List String)
    (nameRaw hps : String)
    (hname : card.name_span = some nameRaw)
    (hdup : card_identifier card ∉ seen)
    (hpoke : is_pokemon_of card = true)
    (hhp : card.hp_span = some hps)
    (hfail : pyInt (pyStrip (replaceHPStr (pyStrip hps))) = none) :
    parse_card_data card seen = (none, seen) := by
  refine parse_card_data_hp_fail card seen nameRaw hname hdup ?_
  unfold hp_result
  rw [if_pos hpoke, hhp]
  show (match pyInt (pyStrip (replaceHPStr (pyStrip hps))) with
    | none => (none : Option (Option Int))
    | some v => some (some v)) = none
  rw [hfail]

/-- Claim C8 (amended): `get_total_pages` returns 1 whenever the
last-page marker is absent or the numeral after its last `/` fails to
parse as an integer, and otherwise returns the parsed integer as is
(which need not be positive). -/
theorem get_total_pages_defaults (m : Option String) :
    ((m = none ∨ ∃ t, m = some t ∧
        pyInt (((pySplitChar '/' (pyStrip t)).getLast?).getD "") = none) →
      get_total_pages m = 1)
    ∧ (∀ t v, m = some t →
        pyInt (((pySplitChar '/' (pyStrip t)).getLast?).getD "") = some v →
        get_total_pages m = v) := by
  constructor
  · rintro (rfl | ⟨t, rfl, hfail⟩)
    · rfl
    · show ((match pyInt (((pySplitChar '/' (pyStrip t)).getLast?).getD "") with
        | none => 1
        | some v => v : Int)) = 1
      rw [hfail]
  · rintro t v rfl hok
    show ((match pyInt (((pySplitChar '/' (pyStrip t)).getLast?).getD "") with
        | none => 1
        | some w => w : Int)) = v
    rw [hok]

/-- Claim C3 (amended): for every input string, `parse_energy_symbols`
returns exactly the sequence obtained by scanning left to right: at each
occurrence of `{`, if a `}` occurs before the next `{` (or end of
string), the character immediately after the `{` is looked up in the
fixed map (C→Colorless, …, N→Dragon), recognized letters yielding
entries in appearance order (the `}` need not immediately follow the
letter); unrecognized characters are skipped without error, and repeated
tokens yield repeated entries (`"{C}{C}"` gives two Colorless). -/
theorem parse_energy_symbols_spec :
    (∀ s : String, parse_energy_symbols s = scanA s.toList) ∧
    parse_energy_symbols "{C}{C}" = ["Colorless", "Colorless"] :=
  ⟨parse_energy_symbols_eq_scanA, rfl⟩

/-- Claim C3 counterexample: `"{CA}"` holds no bracketed single-letter
token of the form open-brace, letter, close-brace, so the claim's scan
yields nothing, yet `parse_energy_symbols` maps its `C` to Colorless. -/
theorem parse_energy_symbols_spec_counterexample :
    parse_energy_symbols "{CA}" = ["Colorless"] ∧
    specFormScan "{CA}".toList = [] :=
  ⟨rfl, rfl⟩

/-- Claim C4: for every natural `n` and every string containing exactly
`n` occurrences of the literal substring `{C}`, the retreat-cost
counting operation returns exactly `n`, whatever else the string
holds. -/
theorem retreat_count_correct (s : String) (n : Nat)
    (h : occCount ['{', 'C', '}'] s.toList = n) :
    retreat_count_op s = n := by
  unfold retreat_count_op
  rw [splitCToken_length, h]
  omega

/-- Witness for C4 at `"{C}{F}{C}"`, which has two occurrences of the
colorless token among interspersed fighting tokens. -/
theorem retreat_count_correct_witness :
    occCount ['{', 'C', '}'] "{C}{F}{C}".toList = 2 ∧
    retreat_count_op "{C}{F}{C}" = 2 :=
  ⟨by decide, retreat_count_correct "{C}{F}{C}" 2 (by decide)⟩

/-- Claim C1 counterexample: on the spec's own example input the code
returns damage `"0"`, not `"2"`: the text before the glyph is
`"Tackle "`, its last space-delimited token is empty, and an empty
damage normalizes to `"0"`. -/
theorem parse_attack_mult_form_counterexample :
    parse_attack "{C}{C} → Tackle ×2\nDoes 20 damage for each heads." =
      some { name := "Tackle", damage := "0",
             energy_cost := ["Colorless", "Colorless"],
             description := "Does 20 damage for each heads." } ∧
    ("0" : String) ≠ "2" :=
  ⟨rfl, by decide⟩

/-- Witness for C1 at the spec's example input. -/
theorem parse_attack_mult_form_witness :
    parse_attack "{C}{C} → Tackle ×2\nDoes 20 damage for each heads." =
      some { name := "Tackle", damage := "0",
             energy_cost := ["Colorless", "Colorless"],
             description := "Does 20 damage for each heads." } :=
  parse_attack_mult_form "{C}{C} → Tackle ×2\nDoes 20 damage for each heads."
    "{C}{C} " " Tackle ×2\nDoes 20 damage for each heads." "Tackle ×2"
    "Tackle" "" ["Does 20 damage for each heads."] rfl rfl (by decide) rfl
    (by decide)

/-- Claim C5 counterexample: the code splits at the last space
character, not at the last whitespace: with a tab between `Ember` and
`30` the claim predicts name `"Ember"` and damage `"30"`, but the code
keeps the whole head as the name and damage `"0"`. -/
theorem parse_attack_colon_form_counterexample :
    parse_attack "{R} → Ember\t30: Discard a card." =
      some { name := "Ember\t30", damage := "0", energy_cost := ["Fire"],
             description := "Discard a card." } ∧
    "Ember\t30" = "Ember" ++ "\t" ++ "30" ∧
    isPyWs '\t' = true ∧
    "30".toList.any Char.isDigit = true :=
  ⟨rfl, rfl, rfl, rfl⟩

/-- Witness for C5 at the spec's two colon-form examples. -/
theorem parse_attack_colon_form_witness :
    parse_attack "{R} → Ember 30: Discard a card." =
      some { name := "Ember", damage := "30", energy_cost := ["Fire"],
             description := "Discard a card." } ∧
    parse_attack "{C} → Gnaw: Does nothing special." =
      some { name := "Gnaw", damage := "0", energy_cost := ["Colorless"],
             description := "Does nothing special." } :=
  ⟨(parse_attack_colon_form "{R} → Ember 30: Discard a card." "{R} "
      " Ember 30: Discard a card." "Ember 30: Discard a card." [] rfl rfl
      (by decide) (by decide)).1 "Ember" "30" rfl (by decide),
   (parse_attack_colon_form "{C} → Gnaw: Does nothing special." "{C} "
      " Gnaw: Does nothing special." "Gnaw: Does nothing special." [] rfl rfl
      (by decide) (by decide)).2 (by decide)⟩

/-- Claim C6 counterexample: `"→×"` contains the arrow exactly once,
yet `parse_attack` returns the empty result (the pre-glyph text has no
space, so Python's `rsplit` indexing raises and is caught). -/
theorem parse_attack_none_iff_counterexample :
    parse_attack "→×" = none ∧ (pySplitChar '→' "→×").length = 2 :=
  ⟨rfl, rfl⟩

/-- Witness for C10 at a colon-form and a bare-form input whose
candidate name text is a single all-digit token. -/
theorem parse_attack_single_token_witness :
    parse_attack "{C} → 30: Discard a card." =
      some { name := "30", damage := "0", energy_cost := ["Colorless"],
             description := "Discard a card." } ∧
    parse_attack "{C} → 30" =
      some { name := "30", damage := "0", energy_cost := ["Colorless"],
             description := "" } :=
  ⟨(parse_attack_single_token "{C} → 30: Discard a card." "{C} "
      " 30: Discard a card." "30: Discard a card." [] rfl rfl
      (by decide)).1 (by decide) (by decide),
   (parse_attack_single_token "{C} → 30" "{C} " " 30" "30" [] rfl rfl
      (by decide)).2 (by decide) (by decide)⟩

/-- Claim C2 counterexample: two subtrees with exactly equal identifiers
(fields: text paragraphs, name span, type line, hp, color, retreat)
where the first card fails to parse because its name span is missing:
the first call returns the empty result and registers nothing, and the
second call then returns a populated record instead of a skip. -/
theorem dedup_second_skip_counterexample :
    card_identifier
        ⟨some ["Some text."], none, some "Trainer", none, none, none⟩
      = card_identifier
        ⟨some ["Some text."], some "Bill", some "Trainer", none, none, none⟩ ∧
    parse_card_data
        ⟨some ["Some text."], none, some "Trainer", none, none, none⟩ []
      = (none, []) ∧
    (parse_card_data
        ⟨some ["Some text."], some "Bill", some "Trainer", none, none, none⟩
        []).1 ≠ none :=
  ⟨rfl, rfl, by decide⟩

/-- Witness for C2: two trainer cards with the same identifier and
different names; the first is accepted and registered, the second is
skipped. -/
theorem dedup_second_skip_witness :
    (["Trainer\nSome text."] : List String) =
      card_identifier
        ⟨some ["Some text."], some "Bill", some "Trainer", none, none, none⟩
        :: [] ∧
    parse_card_data
        ⟨some ["Some text."], some "Bob", some "Trainer", none, none, none⟩
        ["Trainer\nSome text."]
      = (none, ["Trainer\nSome text."]) :=
  dedup_second_skip
    ⟨some ["Some text."], some "Bill", some "Trainer", none, none, none⟩
    ⟨some ["Some text."], some "Bob", some "Trainer", none, none, none⟩
    []
    (card_record_of
      ⟨some ["Some text."], some "Bill", some "Trainer", none, none, none⟩
      "Bill" none)
    ["Trainer\nSome text."] rfl rfl

/-- Witness for C7 at a Pokémon card carrying both hp and retreat
cost. -/
theorem hp_retreat_only_pokemon_witness :
    ∃ cat,
      (card_record_of
        ⟨some ["Gnaw does stuff."], some " Pikachu ",
          some "Basic Pokémon › Evolves", some "60 HP", some "Lightning",
          some "{C}"⟩ " Pikachu " (some 60)).category = some cat ∧
      pyIn "Pokémon" cat = true :=
  hp_retreat_only_pokemon
    ⟨some ["Gnaw does stuff."], some " Pikachu ",
      some "Basic Pokémon › Evolves", some "60 HP", some "Lightning",
      some "{C}"⟩
    []
    (card_record_of
      ⟨some ["Gnaw does stuff."], some " Pikachu ",
        some "Basic Pokémon › Evolves", some "60 HP", some "Lightning",
        some "{C}"⟩ " Pikachu " (some 60))
    ["Basic Pokémon › Evolves\nGnaw does stuff."] rfl (Or.inl rfl)

/-- Witness for C9 at a Pokémon card whose hp text `N/A` cannot parse as
an integer. -/
theorem hp_parse_failure_drops_card_witness :
    parse_card_data
        ⟨some ["Gnaw does stuff."], some " Pikachu ",
          some "Basic Pokémon › Evolves", some "N/A", some "Lightning",
          some "{C}"⟩ []
      = (none, []) :=
  hp_parse_failure_drops_card
    ⟨some ["Gnaw does stuff."], some " Pikachu ",
      some "Basic Pokémon › Evolves", some "N/A", some "Lightning",
      some "{C}"⟩
    [] " Pikachu " "N/A" rfl (by simp) rfl rfl rfl

/-- Claim C8 counterexample: a marker reading `/ 0` parses to 0, so the
returned page count is not positive. -/
theorem get_total_pages_counterexample :
    get_total_pages (some "/ 0") = 0 ∧
    ¬ (0 < get_total_pages (some "/ 0")) :=
  ⟨rfl, by decide⟩

/-- Witness for C8: an absent marker defaults to 1, and a well-formed
marker returns its numeral. -/
theorem get_total_pages_defaults_witness :
    get_total_pages none = 1 ∧ get_total_pages (some " / 41 ") = 41 :=
  ⟨(get_total_pages_defaults none).1 (Or.inl rfl),
   (get_total_pages_defaults (some " / 41 ")).2 " / 41 " 41 rfl rfl⟩
